import Mathlib

/-!
# Verification of the cubist Rubik's-cube core

Shallow embedding of the core modules of the `cubist` repository
(`cubist/core/moves.py`, `cubist/core/cube_state.py`, `cubist/core/scramble.py`,
`cubist/core/validators.py`, `cubist/solvers/research_ida.py`) and proofs /
refutations of the specified properties.

Conventions used throughout:
* Python `int` values are modelled as `Nat`/`Int` (no machine overflow is
  reachable in the embedded code paths: all arithmetic stays tiny).
* Python exceptions are modelled with `Except`; the exception class and the
  message are kept separate where a claim talks about error kinds.
* Notation strings are modelled as `List Char`; the apostrophe character of
  tokens such as R-prime is written `Char.ofNat 39`.
* The permutation/orientation arrays of `CubeState` (fixed lengths 8/8/12/12,
  permutation entries in range by the data model) are modelled as functions
  out of `Fin 8` / `Fin 12`; orientations live in `Nat` (the Python arrays
  can hold out-of-range values, so orientation range is an explicit
  hypothesis where a claim needs it).
-/

namespace Cubist

set_option linter.constructorNameAsVariable false

/-- The apostrophe character used in move notation (e.g. the token R-prime). -/
def primeChar : Char := Char.ofNat 39

/-- `Move` enum from `cubist/core/moves.py`: 18 face turns plus 18 wide
variants, in source order. -/
inductive Move where
  | R | Rp | R2
  | L | Lp | L2
  | U | Up | U2
  | D | Dp | D2
  | F | Fp | F2
  | B | Bp | B2
  | r | rp | r2
  | l | lp | l2
  | u | up | u2
  | d | dp | d2
  | f | fp | f2
  | b | bp | b2
deriving DecidableEq, Fintype, Repr

/-- `Move.__str__`: the canonical notation token of a move, as a character
list (`move_map` in `cubist/core/moves.py`). -/
def Move.str : Move → List Char
  | .R => ['R'] | .Rp => ['R', primeChar] | .R2 => ['R', '2']
  | .L => ['L'] | .Lp => ['L', primeChar] | .L2 => ['L', '2']
  | .U => ['U'] | .Up => ['U', primeChar] | .U2 => ['U', '2']
  | .D => ['D'] | .Dp => ['D', primeChar] | .D2 => ['D', '2']
  | .F => ['F'] | .Fp => ['F', primeChar] | .F2 => ['F', '2']
  | .B => ['B'] | .Bp => ['B', primeChar] | .B2 => ['B', '2']
  | .r => ['r'] | .rp => ['r', primeChar] | .r2 => ['r', '2']
  | .l => ['l'] | .lp => ['l', primeChar] | .l2 => ['l', '2']
  | .u => ['u'] | .up => ['u', primeChar] | .u2 => ['u', '2']
  | .d => ['d'] | .dp => ['d', primeChar] | .d2 => ['d', '2']
  | .f => ['f'] | .fp => ['f', primeChar] | .f2 => ['f', '2']
  | .b => ['b'] | .bp => ['b', primeChar] | .b2 => ['b', '2']

/-- `Move.inverse`: quarter turns map to the opposite-direction quarter turn,
half turns to themselves (`inverse_map` in `cubist/core/moves.py`). -/
def Move.inverse : Move → Move
  | .R => .Rp | .Rp => .R | .R2 => .R2
  | .L => .Lp | .Lp => .L | .L2 => .L2
  | .U => .Up | .Up => .U | .U2 => .U2
  | .D => .Dp | .Dp => .D | .D2 => .D2
  | .F => .Fp | .Fp => .F | .F2 => .F2
  | .B => .Bp | .Bp => .B | .B2 => .B2
  | .r => .rp | .rp => .r | .r2 => .r2
  | .l => .lp | .lp => .l | .l2 => .l2
  | .u => .up | .up => .u | .u2 => .u2
  | .d => .dp | .dp => .d | .d2 => .d2
  | .f => .fp | .fp => .f | .f2 => .f2
  | .b => .bp | .bp => .b | .b2 => .b2

/-- `str(move)[0]`: the face letter of a move (used by
`MoveSequence._get_face`, `scramble._get_move_face` and
`IDAStarSolver._is_redundant`). -/
def Move.face (m : Move) : Char := m.str.headD 'X'

/-- `CubeState` from `cubist/core/cube_state.py`: cubie representation with
corner/edge permutation and orientation arrays.  Array lengths are fixed by
the data model (8/8/12/12) and permutation entries stay in `[0,7]` / `[0,11]`
in every reachable construction, so the permutation arrays are modelled as
`Fin`-valued functions; orientations are plain naturals. -/
structure CubeState where
  cp : Fin 8 → Fin 8
  co : Fin 8 → ℕ
  ep : Fin 12 → Fin 12
  eo : Fin 12 → ℕ

instance : DecidableEq CubeState := fun a b =>
  decidable_of_iff (a.cp = b.cp ∧ a.co = b.co ∧ a.ep = b.ep ∧ a.eo = b.eo)
    (by cases a; cases b; simp)

/-- `CubeState.solved()`: identity permutations, zero orientations. -/
def solvedState : CubeState where
  cp := id
  co := fun _ => 0
  ep := id
  eo := fun _ => 0

/-- The in-place 4-cycle shift used by the `_apply_*_move` helpers:
`new[c0] = old[c1], new[c1] = old[c2], new[c2] = old[c3], new[c3] = old[c0]`,
all other entries unchanged.  (The four cycle positions are distinct at every
use site.) -/
def cycleShift {n : ℕ} {α : Type} (c0 c1 c2 c3 : Fin n) (f : Fin n → α) :
    Fin n → α := fun x =>
  if x = c0 then f c1
  else if x = c1 then f c2
  else if x = c2 then f c3
  else if x = c3 then f c0
  else f x

/-- `CubeState._apply_r_move`: corner cycle `0→3→7→4→0` read as
`new[0]=old[3], new[3]=old[7], new[7]=old[4], new[4]=old[0]`; edge cycle on
positions `0,8,4,11`; no orientation deltas. -/
def applyR (s : CubeState) : CubeState where
  cp := cycleShift 0 3 7 4 s.cp
  co := cycleShift 0 3 7 4 s.co
  ep := cycleShift 0 8 4 11 s.ep
  eo := cycleShift 0 8 4 11 s.eo

/-- `CubeState._apply_u_move`: corner and edge cycles on positions `0,1,2,3`;
no orientation deltas. -/
def applyU (s : CubeState) : CubeState where
  cp := cycleShift 0 1 2 3 s.cp
  co := cycleShift 0 1 2 3 s.co
  ep := cycleShift 0 1 2 3 s.ep
  eo := cycleShift 0 1 2 3 s.eo

/-- `CubeState._apply_f_move`: corner cycle on positions `0,4,5,1` with a
`+1 mod 3` orientation increment written to EVERY cycled corner slot; edge
cycle on positions `1,8,5,9` where the slots `1` and `5` additionally get a
`+1 mod 2` flip.  (This is a verbatim translation of the source, including
the uniform corner increment.) -/
def applyF (s : CubeState) : CubeState where
  cp := cycleShift 0 4 5 1 s.cp
  co := fun x =>
    if x = 0 then (s.co 4 + 1) % 3
    else if x = 4 then (s.co 5 + 1) % 3
    else if x = 5 then (s.co 1 + 1) % 3
    else if x = 1 then (s.co 0 + 1) % 3
    else s.co x
  ep := cycleShift 1 8 5 9 s.ep
  eo := fun x =>
    if x = 1 then (s.eo 8 + 1) % 2
    else if x = 8 then s.eo 5
    else if x = 5 then (s.eo 9 + 1) % 2
    else if x = 9 then s.eo 1
    else s.eo x

/-- `CubeState.apply_move`: dispatch table from `cubist/core/cube_state.py`.
Wide moves r/u/f reuse the base-face helpers; every move not listed in the
`elif` chain (the L, D, B families and the wide l, d, b families) falls into
the final `else` branch, which returns `self.clone()` — an equal copy,
modelled as the state itself. -/
def applyMove (s : CubeState) : Move → CubeState
  | .R => applyR s
  | .Rp => applyR (applyR (applyR s))
  | .R2 => applyR (applyR s)
  | .U => applyU s
  | .Up => applyU (applyU (applyU s))
  | .U2 => applyU (applyU s)
  | .F => applyF s
  | .Fp => applyF (applyF (applyF s))
  | .F2 => applyF (applyF s)
  | .r => applyR s
  | .rp => applyR (applyR (applyR s))
  | .r2 => applyR (applyR s)
  | .f => applyF s
  | .fp => applyF (applyF (applyF s))
  | .f2 => applyF (applyF s)
  | .u => applyU s
  | .up => applyU (applyU (applyU s))
  | .u2 => applyU (applyU s)
  | _ => s

/-! ## Legality invariants (`cubist/core/validators.py`) -/

/-- The cycle-walk inside `_permutation_parity`: starting at `j`, follow the
permutation marking indices visited until an already-visited index is hit,
counting the steps.  The Python `while` loop marks a fresh index on every
iteration, so it runs at most `n` times; `fuel = n` therefore reproduces it
exactly. -/
def cycleWalk {n : ℕ} (f : Fin n → Fin n) :
    ℕ → (Fin n → Bool) → Fin n → ℕ → ((Fin n → Bool) × ℕ)
  | 0, v, _, len => (v, len)
  | fuel + 1, v, j, len =>
    if v j then (v, len)
    else cycleWalk f fuel (Function.update v j true) (f j) (len + 1)

/-- `_permutation_parity` from `cubist/core/validators.py`: walk the cycle
decomposition and flip the parity bit once per even-length cycle. -/
def permParity {n : ℕ} (f : Fin n → Fin n) : ℕ :=
  ((List.finRange n).foldl
    (fun acc i =>
      if acc.1 i then acc
      else
        let w := cycleWalk f n acc.1 i 0
        (w.1, if w.2 % 2 = 0 then acc.2 ^^^ 1 else acc.2))
    (fun _ => false, 0)).2

/-- `sum(corner_orient)`. -/
def cornerTwistSum (s : CubeState) : ℕ := ∑ i, s.co i

/-- `sum(edge_orient)`. -/
def edgeFlipSum (s : CubeState) : ℕ := ∑ i, s.eo i

/-- A state is legal (the four invariants of the spec, checked by
`validate_cube_state`): the two permutation arrays are bijections, the corner
twist sum is divisible by 3, the edge flip sum is even, and the corner and
edge permutation parities match. -/
def IsLegal (s : CubeState) : Prop :=
  Function.Bijective s.cp ∧ Function.Bijective s.ep ∧
    cornerTwistSum s % 3 = 0 ∧ edgeFlipSum s % 2 = 0 ∧
    permParity s.cp = permParity s.ep

instance (s : CubeState) : Decidable (IsLegal s) := by
  unfold IsLegal; infer_instance

/-- The data-model range constraint on orientations (`corner_orient` entries
in {0,1,2}, `edge_orient` entries in {0,1}), checked separately by
`validate_cube_state`. -/
def OrientInRange (s : CubeState) : Prop :=
  (∀ i, s.co i < 3) ∧ (∀ j, s.eo j < 2)

instance (s : CubeState) : Decidable (OrientInRange s) := by
  unfold OrientInRange; infer_instance

/-! ## The IDA* heuristic (`cubist/solvers/research_ida.py`) -/

/-- Number of indices `i` with `corner_perm[i] != i`. -/
def cornersOutOfPlace (s : CubeState) : ℕ :=
  (Finset.univ.filter fun i => s.cp i ≠ i).card

/-- Number of indices `i` with `edge_perm[i] != i`. -/
def edgesOutOfPlace (s : CubeState) : ℕ :=
  (Finset.univ.filter fun i => s.ep i ≠ i).card

/-- `IDAStarSolver._heuristic`: 0 for the solved state, otherwise the maximum
of the four ceiling-division lower bounds and 1.  (`(x + 2) // 3` is the
ceiling of `x / 3`, and similarly for the other divisors.) -/
def heuristic (s : CubeState) : ℕ :=
  if s = solvedState then 0
  else
    let h0 : ℕ := 0
    let ct := cornerTwistSum s
    let h1 := if 0 < ct then max h0 ((ct + 2) / 3) else h0
    let ef := edgeFlipSum s
    let h2 := if 0 < ef then max h1 ((ef + 1) / 2) else h1
    let cop := cornersOutOfPlace s
    let h3 := if 0 < cop then max h2 ((cop + 2) / 3) else h2
    let eop := edgesOutOfPlace s
    let h4 := if 0 < eop then max h3 ((eop + 3) / 4) else h3
    max h4 1

/-! ## Notation strings (`cubist/core/moves.py`) -/

/-- ASCII whitespace, the characters Python's regex `\s` matches on the
tokens that can appear here (space, tab, newline, carriage return, vertical
tab, form feed). -/
def isWs (c : Char) : Bool :=
  c = ' ' || c = '\t' || c = '\n' || c = '\r' ||
    c = Char.ofNat 11 || c = Char.ofNat 12

/-- Python `str.strip()`: remove leading and trailing whitespace. -/
def stripChars (cs : List Char) : List Char :=
  ((cs.dropWhile isWs).reverse.dropWhile isWs).reverse

/-- The `string_map` of `Move.from_string`: notation token to move.  It is
the exact inverse table of `Move.__str__`. -/
def moveTable : List (List Char × Move) :=
  [(['R'], .R), (['R', primeChar], .Rp), (['R', '2'], .R2),
   (['L'], .L), (['L', primeChar], .Lp), (['L', '2'], .L2),
   (['U'], .U), (['U', primeChar], .Up), (['U', '2'], .U2),
   (['D'], .D), (['D', primeChar], .Dp), (['D', '2'], .D2),
   (['F'], .F), (['F', primeChar], .Fp), (['F', '2'], .F2),
   (['B'], .B), (['B', primeChar], .Bp), (['B', '2'], .B2),
   (['r'], .r), (['r', primeChar], .rp), (['r', '2'], .r2),
   (['l'], .l), (['l', primeChar], .lp), (['l', '2'], .l2),
   (['u'], .u), (['u', primeChar], .up), (['u', '2'], .u2),
   (['d'], .d), (['d', primeChar], .dp), (['d', '2'], .d2),
   (['f'], .f), (['f', primeChar], .fp), (['f', '2'], .f2),
   (['b'], .b), (['b', primeChar], .bp), (['b', '2'], .b2)]

/-- `Move.from_string`: strip the token, look it up in the notation table,
raise `ValueError` (modelled as `Except.error` with the message) on a miss. -/
def moveFromChars (cs : List Char) : Except String Move :=
  let t := stripChars cs
  match moveTable.find? (fun p => p.1 == t) with
  | some p => .ok p.2
  | none => .error (String.mk ("Invalid move notation: ".data ++ t))

/-- `MoveSequence.__str__`: `" ".join(str(move) for move in moves)`. -/
def seqStr : List Move → List Char
  | [] => []
  | [m] => m.str
  | m :: m2 :: rest => m.str ++ ' ' :: seqStr (m2 :: rest)

/-- The token splitter of `MoveSequence.parse`:
`re.split(r'\s+', text)` on an already-stripped string, dropping empty
tokens (the list comprehension's `if token.strip()` filter).  Splitting on
maximal whitespace runs and skipping leading whitespace produces exactly
those tokens. -/
def splitWs : List Char → List (List Char)
  | [] => []
  | c :: rest =>
    if isWs c then splitWs rest
    else (c :: rest.takeWhile (fun x => !isWs x)) ::
      splitWs (rest.dropWhile (fun x => !isWs x))
termination_by l => l.length
decreasing_by
  · simp
  · have := rest.dropWhile_suffix (fun x => !isWs x) |>.length_le
    simp
    omega

/-- `MoveSequence.parse`: empty/whitespace-only input gives the empty
sequence; otherwise split into tokens and parse each one, wrapping a token
failure in the `Invalid move sequence:` message. -/
def parseSeq (cs : List Char) : Except String (List Move) :=
  if stripChars cs = [] then .ok []
  else
    (splitWs (stripChars cs)).mapM fun tok =>
      match moveFromChars tok with
      | .ok m => Except.ok m
      | .error e => Except.error ("Invalid move sequence: " ++ e)

/-! ## Sequence simplification (`MoveSequence.simplify`) -/

/-- `MoveSequence._get_turn_count`: -1 for a prime move, 2 for a half turn,
else 1 (string containment checks on the notation token). -/
def turnCount (m : Move) : ℤ :=
  if (Move.str m).contains primeChar then -1
  else if (Move.str m).contains '2' then 2
  else 1

/-- `MoveSequence._create_move`: build the token from the face letter and the
suffix for turn count 1 / -1 / 2 and parse it; any other count raises
`ValueError`. -/
def createMove (face : Char) (count : ℤ) : Except String Move :=
  if count = 1 then moveFromChars [face]
  else if count = -1 then moveFromChars [face, primeChar]
  else if count = 2 then moveFromChars [face, '2']
  else .error ("Invalid turn count: " ++ toString count)

/-- `MoveSequence.simplify`: scan left to right; for each position take the
maximal run of following moves with the same (case-sensitive) face letter,
sum the turn counts, normalise modulo 4 (3 becomes -1), drop an identity run
and otherwise emit the single combined move.  The Python `while`-loop with
its look-ahead index `j` is exactly this takeWhile/dropWhile recursion. -/
def simplifySeq : List Move → Except String (List Move)
  | [] => .ok []
  | m :: rest =>
    let face := Move.face m
    let run := rest.takeWhile fun x => Move.face x == face
    let rest2 := rest.dropWhile fun x => Move.face x == face
    let count := (turnCount m + (run.map turnCount).sum) % 4
    let count2 : ℤ := if count = 3 then -1 else count
    if count2 = 0 then simplifySeq rest2
    else do
      let mv ← createMove face count2
      let tail ← simplifySeq rest2
      pure (mv :: tail)
termination_by l => l.length
decreasing_by
  all_goals
    have := rest.dropWhile_suffix (fun x => Move.face x == Move.face m) |>.length_le
    simp
    omega

/-! Spec-side description of C5 (amended): split the sequence into maximal
runs of literally consecutive moves whose notation tokens start with the same
(case-sensitive) character, sum each run's quarter-turn counts mod 4 and map
the total to no move / the quarter turn / the half turn / the quarter-turn
inverse of the run's face. -/

/-- Quarter-turn count of a move as the spec words it: a quarter turn counts
1, a half turn 2, a quarter-turn inverse 3. -/
def quarterTurns : Move → ℕ
  | .R | .L | .U | .D | .F | .B | .r | .l | .u | .d | .f | .b => 1
  | .R2 | .L2 | .U2 | .D2 | .F2 | .B2 | .r2 | .l2 | .u2 | .d2 | .f2 | .b2 => 2
  | _ => 3

/-- The quarter turn of a face letter. -/
def faceQuarter (c : Char) : Option Move :=
  if c = 'R' then some .R else if c = 'L' then some .L
  else if c = 'U' then some .U else if c = 'D' then some .D
  else if c = 'F' then some .F else if c = 'B' then some .B
  else if c = 'r' then some .r else if c = 'l' then some .l
  else if c = 'u' then some .u else if c = 'd' then some .d
  else if c = 'f' then some .f else if c = 'b' then some .b
  else none

/-- The half turn of a face letter. -/
def faceHalf (c : Char) : Option Move :=
  if c = 'R' then some .R2 else if c = 'L' then some .L2
  else if c = 'U' then some .U2 else if c = 'D' then some .D2
  else if c = 'F' then some .F2 else if c = 'B' then some .B2
  else if c = 'r' then some .r2 else if c = 'l' then some .l2
  else if c = 'u' then some .u2 else if c = 'd' then some .d2
  else if c = 'f' then some .f2 else if c = 'b' then some .b2
  else none

/-- The quarter-turn inverse of a face letter. -/
def faceQInv (c : Char) : Option Move :=
  if c = 'R' then some .Rp else if c = 'L' then some .Lp
  else if c = 'U' then some .Up else if c = 'D' then some .Dp
  else if c = 'F' then some .Fp else if c = 'B' then some .Bp
  else if c = 'r' then some .rp else if c = 'l' then some .lp
  else if c = 'u' then some .up else if c = 'd' then some .dp
  else if c = 'f' then some .fp else if c = 'b' then some .bp
  else none

/-- Maximal runs of consecutive moves on the same (case-sensitive) face. -/
def runsByFace : List Move → List (List Move)
  | [] => []
  | m :: rest =>
    (m :: rest.takeWhile fun x => Move.face x == Move.face m) ::
      runsByFace (rest.dropWhile fun x => Move.face x == Move.face m)
termination_by l => l.length
decreasing_by
  have := rest.dropWhile_suffix (fun x => Move.face x == Move.face m) |>.length_le
  simp
  omega

/-- Coalesce one maximal run per the spec's words: total quarter-turn count
mod 4 mapped to drop / quarter / half / quarter-inverse of the run's face. -/
def coalesceRun (run : List Move) : Option Move :=
  match run with
  | [] => none
  | m :: _ =>
    match (run.map quarterTurns).sum % 4 with
    | 1 => faceQuarter (Move.face m)
    | 2 => faceHalf (Move.face m)
    | 3 => faceQInv (Move.face m)
    | _ => none

/-- The coalescing transformation stated by the (amended) claim. -/
def coalesceSpec (ms : List Move) : List Move :=
  (runsByFace ms).filterMap coalesceRun

/-! ## Scramble generation (`cubist/core/scramble.py`) -/

/-- The keys of `move_groups`, in insertion order. -/
def scrambleFaces : List Char := ['R', 'L', 'U', 'D', 'F', 'B']

/-- `move_groups`: the three turn variants of each base face. -/
def moveGroups (c : Char) : List Move :=
  if c = 'R' then [.R, .Rp, .R2]
  else if c = 'L' then [.L, .Lp, .L2]
  else if c = 'U' then [.U, .Up, .U2]
  else if c = 'D' then [.D, .Dp, .D2]
  else if c = 'F' then [.F, .Fp, .F2]
  else if c = 'B' then [.B, .Bp, .B2]
  else []

/-- `opposite_faces.get`: the opposite face of a base face letter, `none` for
any other character (Python `dict.get` returns `None` on a miss). -/
def oppositeFace (c : Char) : Option Char :=
  if c = 'R' then some 'L' else if c = 'L' then some 'R'
  else if c = 'U' then some 'D' else if c = 'D' then some 'U'
  else if c = 'F' then some 'B' else if c = 'B' then some 'F'
  else none

/-- The face filter inside `generate_scramble`'s loop: a face is skipped when
it equals the previous move's face, or when the previous two faces exist, the
candidate equals the face before last and its opposite is the last face. -/
def faceAllowed (f : Char) (lastF slastF : Option Char) : Bool :=
  if lastF = some f then false
  else if slastF = some f ∧ lastF ≠ none ∧ oppositeFace f = lastF then false
  else true

/-- The main loop of `generate_scramble`.  The two `random.choice` calls of
each iteration are modelled by an oracle of arbitrary naturals consumed in
call order: `random.choice(xs)` becomes `xs.getD (oracle k % xs.length) dflt`
(the default is never reached: the valid-face list is provably nonempty and
each move group of a chosen face has three elements). -/
def scrambleLoop (oracle : ℕ → ℕ) : ℕ → ℕ → Option Char → Option Char → List Move
  | 0, _, _, _ => []
  | n + 1, k, lastF, slastF =>
    let valid := scrambleFaces.filter fun f => faceAllowed f lastF slastF
    let cf := valid.getD (oracle k % valid.length) 'R'
    let grp := moveGroups cf
    let mv := grp.getD (oracle (k + 1) % grp.length) .R
    mv :: scrambleLoop oracle n (k + 2) (some cf) lastF

/-- `generate_scramble(length)`: empty for `length <= 0`, else `length`
iterations of the loop starting with no face history. -/
def generateScramble (len : ℤ) (oracle : ℕ → ℕ) : List Move :=
  if len ≤ 0 then [] else scrambleLoop oracle len.toNat 0 none none

/-- The 18 base face turns of `move_groups` (equally, `IDAStarSolver.moves`). -/
def scrambleBaseMoves : List Move :=
  [.R, .Rp, .R2, .L, .Lp, .L2, .U, .Up, .U2, .D, .Dp, .D2, .F, .Fp, .F2,
   .B, .Bp, .B2]

/-- No two adjacent moves share a face (the pair check of
`is_valid_scramble`). -/
def adjacentFacesDiffer : List Move → Bool
  | a :: b :: rest =>
    (Move.face a != Move.face b) && adjacentFacesDiffer (b :: rest)
  | _ => true

/-- No opposite-face sandwich: no three consecutive moves with the first and
third on the same face and the middle on that face's opposite face (the
triple check of `is_valid_scramble`). -/
def noSandwich : List Move → Bool
  | a :: b :: c :: rest =>
    !(Move.face a == Move.face c &&
      oppositeFace (Move.face a) == some (Move.face b)) &&
    noSandwich (b :: c :: rest)
  | _ => true

/-- The chain invariant of the scramble loop: every move's face is allowed
with respect to the (virtual) previous two faces. -/
def goodChain : Option Char → Option Char → List Move → Bool
  | _, _, [] => true
  | slastF, lastF, m :: rest =>
    faceAllowed (Move.face m) lastF slastF &&
      goodChain lastF (some (Move.face m)) rest

/-! ## Facelet conversion (`cubist/core/cube_state.py`) -/

/-- `ColorScheme` from `cubist/core/color_scheme.py`: six hex-color strings,
one per face, in source field order. -/
structure ColorScheme where
  U : String
  D : String
  F : String
  B : String
  R : String
  L : String
deriving DecidableEq

/-- `getattr(scheme, centers[i])` with `centers = ['U','R','F','D','L','B']`:
the color of face `i` in the facelet layout order U,R,F,D,L,B. -/
def schemeColor (sch : ColorScheme) : Fin 6 → String :=
  fun k =>
    if k = 0 then sch.U
    else if k = 1 then sch.R
    else if k = 2 then sch.F
    else if k = 3 then sch.D
    else if k = 4 then sch.L
    else sch.B

/-- `corner_facelets`: for each corner slot, the three (face, position) pairs
of its stickers, identical in `from_facelets` and `to_facelets`. -/
def cornerFacelets (j : ℕ) : Fin 6 × ℕ × Fin 6 × ℕ × Fin 6 × ℕ :=
  match j with
  | 0 => (0, 0, 1, 0, 2, 2)
  | 1 => (0, 2, 2, 0, 4, 2)
  | 2 => (0, 8, 4, 0, 5, 2)
  | 3 => (0, 6, 5, 0, 1, 2)
  | 4 => (3, 2, 2, 8, 1, 6)
  | 5 => (3, 0, 4, 8, 2, 6)
  | 6 => (3, 6, 5, 8, 4, 6)
  | _ => (3, 8, 1, 8, 5, 6)

/-- `edge_facelets`: for each edge slot, the two (face, position) pairs of
its stickers. -/
def edgeFacelets (j : ℕ) : Fin 6 × ℕ × Fin 6 × ℕ :=
  match j with
  | 0 => (0, 1, 1, 1)
  | 1 => (0, 5, 2, 1)
  | 2 => (0, 7, 4, 1)
  | 3 => (0, 3, 5, 1)
  | 4 => (3, 1, 1, 7)
  | 5 => (3, 5, 2, 7)
  | 6 => (3, 7, 4, 7)
  | 7 => (3, 3, 5, 7)
  | 8 => (2, 5, 1, 3)
  | 9 => (2, 3, 4, 5)
  | 10 => (4, 3, 5, 5)
  | _ => (5, 3, 1, 5)

/-- `rotated_colors = [colors[(k + orient) % 3] for k in range(3)]` in the
corner search of `from_facelets` (the color lists always have length 3, so
the `getD` default is never read). -/
def rotate3 (colors : List String) (o : ℕ) : List String :=
  [colors.getD (o % 3) "", colors.getD ((1 + o) % 3) "",
   colors.getD ((2 + o) % 3) ""]

/-- The corner-matching search of `from_facelets`: try each reference corner
`j` in order and each of the three rotations in order; the first rotation of
the observed colors equal to the reference corner's center colors wins. -/
def findCorner (colors : List String) (centers : Fin 6 → String) :
    Option (Fin 8 × ℕ) :=
  (List.finRange 8).findSome? fun j =>
    let t := cornerFacelets j.val
    ((List.range 3).find? fun o =>
        rotate3 colors o == [centers t.1, centers t.2.2.1, centers t.2.2.2.2.1]).map
      fun o => (j, o)

/-- The edge-matching search of `from_facelets`: the observed pair matches a
reference edge directly (orientation 0) or swapped (orientation 1). -/
def findEdge (colors : List String) (centers : Fin 6 → String) :
    Option (Fin 12 × ℕ) :=
  (List.finRange 12).findSome? fun j =>
    let t := edgeFacelets j.val
    if colors == [centers t.1, centers t.2.2.1] then some (j, 0)
    else if colors == [centers t.2.2.1, centers t.1] then some (j, 1)
    else none

/-- One iteration of the corner loop of `from_facelets`: a failed search
raises `ValueError` naming the position. -/
def decodeCorner (colors : List String) (centers : Fin 6 → String) (i : ℕ) :
    Except String (Fin 8 × ℕ) :=
  match findCorner colors centers with
  | some po => .ok po
  | none => .error ("Invalid corner at position " ++ toString i)

/-- One iteration of the edge loop of `from_facelets`. -/
def decodeEdge (colors : List String) (centers : Fin 6 → String) (i : ℕ) :
    Except String (Fin 12 × ℕ) :=
  match findEdge colors centers with
  | some po => .ok po
  | none => .error ("Invalid edge at position " ++ toString i)

/-- `CubeState.from_facelets`: check the length, read the six center colors,
decode every corner and edge slot against them, and assemble the state (the
decoded lists have length 8 and 12, so the `getD` defaults are never read). -/
def fromFacelets (facelets : List String) : Except String CubeState :=
  if facelets.length ≠ 54 then
    .error ("Expected 54 facelets, got " ++ toString facelets.length)
  else
    match (List.finRange 8).mapM fun i =>
        decodeCorner
          [facelets.getD ((cornerFacelets i.val).1.val * 9 +
              (cornerFacelets i.val).2.1) "",
           facelets.getD ((cornerFacelets i.val).2.2.1.val * 9 +
              (cornerFacelets i.val).2.2.2.1) "",
           facelets.getD ((cornerFacelets i.val).2.2.2.2.1.val * 9 +
              (cornerFacelets i.val).2.2.2.2.2) ""]
          (fun k => facelets.getD (9 * k.val + 4) "") i.val with
    | .error e => .error e
    | .ok corners =>
      match (List.finRange 12).mapM fun i =>
          decodeEdge
            [facelets.getD ((edgeFacelets i.val).1.val * 9 +
                (edgeFacelets i.val).2.1) "",
             facelets.getD ((edgeFacelets i.val).2.2.1.val * 9 +
                (edgeFacelets i.val).2.2.2) ""]
            (fun k => facelets.getD (9 * k.val + 4) "") i.val with
      | .error e => .error e
      | .ok edges =>
        .ok
          { cp := fun i => (corners.getD i.val (0, 0)).1
            co := fun i => (corners.getD i.val (0, 0)).2
            ep := fun i => (edges.getD i.val (0, 0)).1
            eo := fun i => (edges.getD i.val (0, 0)).2 }

/-- The oriented color triple a corner slot receives in `to_facelets`:
`oriented_colors = [solved_colors[(j - orientation) % 3] for j in range(3)]`
over the solved colors of the corner occupying the slot. -/
def cornerOriented (σ : Fin 6 → String) (p : ℕ) (o : ℕ) : List String :=
  [[σ (cornerFacelets p).1, σ (cornerFacelets p).2.2.1,
      σ (cornerFacelets p).2.2.2.2.1].getD
    (((0 : ℤ) - (o : ℤ)).emod 3).toNat "",
   [σ (cornerFacelets p).1, σ (cornerFacelets p).2.2.1,
      σ (cornerFacelets p).2.2.2.2.1].getD
    (((1 : ℤ) - (o : ℤ)).emod 3).toNat "",
   [σ (cornerFacelets p).1, σ (cornerFacelets p).2.2.1,
      σ (cornerFacelets p).2.2.2.2.1].getD
    (((2 : ℤ) - (o : ℤ)).emod 3).toNat ""]

/-- The oriented color pair an edge slot receives in `to_facelets`: the
solved pair, swapped exactly when the stored orientation equals 1. -/
def edgeOriented (σ : Fin 6 → String) (p : ℕ) (o : ℕ) : List String :=
  [if o = 1 then σ (edgeFacelets p).2.2.1 else σ (edgeFacelets p).1,
   if o = 1 then σ (edgeFacelets p).1 else σ (edgeFacelets p).2.2.1]

/-- Array-cell assignment `facelets[i] = v`, modelling the Python list as an
index function (the list is materialised once all writes are done). -/
def setAt (f : ℕ → String) (i : ℕ) (v : String) : ℕ → String :=
  fun j => if j = i then v else f j

/-- `CubeState.to_facelets`: start from 54 empty cells, fill the six centers
from the scheme, then scatter each corner slot's oriented triple and each
edge slot's oriented pair to its sticker positions; finally materialise the
54-cell list. -/
def toFacelets (s : CubeState) (sch : ColorScheme) : List String :=
  let base : ℕ → String := fun _ => ""
  let withCenters := (List.finRange 6).foldl
    (fun acc k => setAt acc (9 * k.val + 4) (schemeColor sch k)) base
  let withCorners := (List.finRange 8).foldl
    (fun acc i =>
      setAt (setAt (setAt acc
        ((cornerFacelets i.val).1.val * 9 + (cornerFacelets i.val).2.1)
        ((cornerOriented (schemeColor sch) (s.cp i).val (s.co i)).getD 0 ""))
        ((cornerFacelets i.val).2.2.1.val * 9 + (cornerFacelets i.val).2.2.2.1)
        ((cornerOriented (schemeColor sch) (s.cp i).val (s.co i)).getD 1 ""))
        ((cornerFacelets i.val).2.2.2.2.1.val * 9 +
            (cornerFacelets i.val).2.2.2.2.2)
        ((cornerOriented (schemeColor sch) (s.cp i).val (s.co i)).getD 2 ""))
    withCenters
  let full := (List.finRange 12).foldl
    (fun acc i =>
      setAt (setAt acc
        ((edgeFacelets i.val).1.val * 9 + (edgeFacelets i.val).2.1)
        ((edgeOriented (schemeColor sch) (s.ep i).val (s.eo i)).getD 0 ""))
        ((edgeFacelets i.val).2.2.1.val * 9 + (edgeFacelets i.val).2.2.2)
        ((edgeOriented (schemeColor sch) (s.ep i).val (s.eo i)).getD 1 ""))
    withCorners
  (List.range 54).map full

/-! ## Facelet validation (`validate_facelets`) -/

/-- The distinct colors of a facelet list in first-occurrence order (the keys
of `Counter(facelets)`; Python dicts preserve insertion order). -/
def uniques (l : List String) : List String :=
  l.foldl (fun acc c => if c ∈ acc then acc else acc ++ [c]) []

/-- `validate_facelets`: length check, color-count checks (accumulated), then
— only when those pass — the cubie-level invariant checks on the converted
state, the conversion failure being caught and reported.  `Counter` is
modelled by `uniques` plus `List.count`. -/
def validateFacelets (facelets : List String) : Bool × List String :=
  if facelets.length ≠ 54 then
    (false, ["Expected 54 facelets, got " ++ toString facelets.length])
  else
    let uq := uniques facelets
    let e1 : List String :=
      if uq.length ≠ 6 then
        ["Expected exactly 6 different colors, got " ++ toString uq.length]
      else []
    let e2 := uq.filterMap fun c =>
      if facelets.count c ≠ 9 then
        some ("Color " ++ c ++ " appears " ++ toString (facelets.count c) ++
          " times, expected 9")
      else none
    let errs := e1 ++ e2
    if errs ≠ [] then (false, errs)
    else
      match fromFacelets facelets with
      | .error e => ((false : Bool), ["Invalid cube configuration: " ++ e])
      | .ok st =>
        let e3 :=
          (if cornerTwistSum st % 3 ≠ 0 then
            ["Invalid corner twist sum (must be divisible by 3)"] else []) ++
          (if edgeFlipSum st % 2 ≠ 0 then
            ["Invalid edge flip sum (must be even)"] else []) ++
          (if permParity st.cp ≠ permParity st.ep then
            ["Corner and edge permutation parities must match"] else [])
        (e3.isEmpty, e3)

/-- A 54-cell facelet list with 6 distinct colors in which color a appears 8
times and color b appears 10 times. -/
def miscountedFacelets : List String :=
  List.replicate 8 "a" ++ List.replicate 10 "b" ++ List.replicate 9 "c" ++
    List.replicate 9 "d" ++ List.replicate 9 "e" ++ List.replicate 9 "f"

/-! ## IDA* solver (`cubist/solvers/research_ida.py`) -/

/-- Python exception classes relevant to this repository.  `solve` only ever
raises `ValueError`; the other constructors exist so that "distinct exception
kinds" is an expressible property. -/
inductive PyExcKind where
  | valueError
  | typeError
  | indexError
deriving DecidableEq

/-- A raised Python exception: its class and its message. -/
structure PyError where
  kind : PyExcKind
  msg : String
deriving DecidableEq

/-- Result of `_search`: a solution path, or the new bound (the float
infinity returned on cancel/timeout/cycle is `⊤`). -/
inductive SRes where
  | found : List Move → SRes
  | bnd : ℕ∞ → SRes
deriving DecidableEq

/-- `IDAStarSolver._is_redundant`: same face, or opposite face, as the
previous move. -/
def isRedundant (m1 m2 : Move) : Bool :=
  if Move.face m1 = Move.face m2 then true
  else if oppositeFace (Move.face m1) = some (Move.face m2) then true
  else false

/-- `self.max_depth` default. -/
def idaMaxDepth : ℕ := 25

/-- `self.max_time` default (seconds). -/
def idaMaxTime : ℕ := 300

/-- `IDAStarSolver._search`, shallowly embedded.  `time.time()` calls are an
oracle `tOr` consumed in call order through the counter `tk`; reads of the
concurrently writable `self._cancelled` flag are an oracle `cOr` with
counter `ck` (the Python `or` short-circuits, so the time oracle is consumed
only when the cancel read is false).  The shared `visited` set equals the
set of states on the current path at every call — every exit path removes
what was added — so it is passed functionally.  `fuel` bounds the recursion
depth; `none` means the fuel ran out (never reached by the theorems below).
The per-node result carries the next oracle counters. -/
def search (tOr : ℕ → ℕ) (cOr : ℕ → Bool) (startT : ℕ) :
    ℕ → CubeState → ℕ → ℕ∞ → List Move → List CubeState → ℕ → ℕ →
      Option (SRes × ℕ × ℕ)
  | 0, _, _, _, _, _, _, _ => none
  | fuel + 1, state, g, bound, path, visited, tk, ck =>
    if cOr ck then some (.bnd ⊤, tk, ck + 1)
    else if idaMaxTime < tOr tk - startT then some (.bnd ⊤, tk + 1, ck + 1)
    else
      let f : ℕ∞ := ((g + heuristic state : ℕ) : ℕ∞)
      if bound < f then some (.bnd f, tk + 1, ck + 1)
      else if state = solvedState then some (.found path, tk + 1, ck + 1)
      else if state ∈ visited then some (.bnd ⊤, tk + 1, ck + 1)
      else
        match scrambleBaseMoves.foldl
          (fun acc mv =>
            match acc with
            | none => none
            | some (Sum.inr pr, a, b) => some (Sum.inr pr, a, b)
            | some (Sum.inl minB, a, b) =>
              if (match path.getLast? with
                  | some lastMv => isRedundant mv lastMv
                  | none => false) then
                some (Sum.inl minB, a, b)
              else
                match search tOr cOr startT fuel (applyMove state mv) (g + 1)
                    bound (path ++ [mv]) (state :: visited) a b with
                | none => none
                | some (.found p, a2, b2) => some (Sum.inr p, a2, b2)
                | some (.bnd bv, a2, b2) => some (Sum.inl (min minB bv), a2, b2))
          (some (Sum.inl (⊤ : ℕ∞), tk + 1, ck + 1)) with
        | none => none
        | some (Sum.inl minB, a, b) => some (.bnd minB, a, b)
        | some (Sum.inr p, a, b) => some (.found p, a, b)

/-- The `for depth in range(1, max_depth + 1)` loop of `solve`, counted by
the remaining iterations; falling off the loop raises the depth error.  The
progress callback is `None`, so no extra `time.time()` calls occur. -/
def solveLoop (tOr : ℕ → ℕ) (cOr : ℕ → Bool) (startT : ℕ) (state : CubeState)
    (fuel : ℕ) : ℕ → ℕ∞ → ℕ → ℕ → Option (Except PyError (List Move))
  | 0, _, _, _ =>
    some (.error ⟨.valueError, "No solution found within maximum depth"⟩)
  | d + 1, bound, tk, ck =>
    if cOr ck then some (.error ⟨.valueError, "Search cancelled by user"⟩)
    else if idaMaxTime < tOr tk - startT then
      some (.error ⟨.valueError, "Search timeout exceeded"⟩)
    else
      match search tOr cOr startT fuel state 0 bound [] [] (tk + 1) (ck + 1) with
      | none => none
      | some (.found p, _, _) => some (.ok p)
      | some (.bnd b, tk2, ck2) => solveLoop tOr cOr startT state fuel d b tk2 ck2

/-- `IDAStarSolver.solve` with default settings and no progress callback: a
solved input returns the empty sequence at once; otherwise the start time is
read and the bound starts at the heuristic estimate. -/
def solveE (state : CubeState) (tOr : ℕ → ℕ) (cOr : ℕ → Bool) (fuel : ℕ) :
    Option (Except PyError (List Move)) :=
  if state = solvedState then some (.ok [])
  else solveLoop tOr cOr (tOr 0) state fuel idaMaxDepth
    ((heuristic state : ℕ) : ℕ∞) 1 0

/-! ## Theorems about the claims -/

/-- Helper: Nat-ceiling of `x / k` equals the rounded-up integer division
`(x + k - 1) / k` (the form the Python code writes as `(x + k - 1) // k`). -/
theorem natCeilDiv (x k : ℕ) (hk : 0 < k) :
    ⌈(x : ℚ) / k⌉₊ = (x + k - 1) / k := by
  rcases Nat.eq_zero_or_pos x with rfl | hx
  · have h1 : (0 + k - 1) / k = 0 := Nat.div_eq_of_lt (by omega)
    rw [h1]
    simp
  · have hd1 : 1 ≤ (x + k - 1) / k := (Nat.one_le_div_iff hk).mpr (by omega)
    rw [Nat.ceil_eq_iff (by omega)]
    have hmod := Nat.div_add_mod (x + k - 1) k
    have hmlt : (x + k - 1) % k < k := Nat.mod_lt _ hk
    set d := (x + k - 1) / k with hd
    set t := k * d with ht
    have hub : x ≤ d * k := by rw [mul_comm]; omega
    have hlb : (d - 1) * k < x := by
      have h2 : (d - 1) * k = t - k := by
        rw [Nat.sub_mul, one_mul, mul_comm]
      omega
    have hkq : (0 : ℚ) < (k : ℚ) := by exact_mod_cast hk
    constructor
    · rw [lt_div_iff₀ hkq]
      exact_mod_cast hlb
    · rw [div_le_iff₀ hkq]
      exact_mod_cast hub

/-- `⌈x/2⌉ = (x+1)/2` in `ℕ`. -/
theorem ceilDiv2 (x : ℕ) : ⌈(x : ℚ) / 2⌉₊ = (x + 1) / 2 := by
  have h := natCeilDiv x 2 (by norm_num)
  have h2 : x + 2 - 1 = x + 1 := by omega
  rw [h2] at h
  exact_mod_cast h

/-- `⌈x/3⌉ = (x+2)/3` in `ℕ`. -/
theorem ceilDiv3 (x : ℕ) : ⌈(x : ℚ) / 3⌉₊ = (x + 2) / 3 := by
  have h := natCeilDiv x 3 (by norm_num)
  have h2 : x + 3 - 1 = x + 2 := by omega
  rw [h2] at h
  exact_mod_cast h

/-- `⌈x/4⌉ = (x+3)/4` in `ℕ`. -/
theorem ceilDiv4 (x : ℕ) : ⌈(x : ℚ) / 4⌉₊ = (x + 3) / 4 := by
  have h := natCeilDiv x 4 (by norm_num)
  have h2 : x + 4 - 1 = x + 3 := by omega
  rw [h2] at h
  exact_mod_cast h

/-- **C1** (code bug witness).  The claim says `apply_move` preserves the four
legality invariants, but `_apply_f_move` writes a `+1 mod 3` increment to all
four cycled corner-orientation slots, so a single F move on the (legal)
solved state yields corner twist sum `4 ≡ 1 (mod 3)`: the result violates the
corner-twist invariant and `validate_cube_state` would reject it. -/
theorem C1_F_move_breaks_legality :
    IsLegal solvedState ∧ ¬ IsLegal (applyMove solvedState Move.F) ∧
      cornerTwistSum (applyMove solvedState Move.F) = 4 := by
  decide

/-- **C2** (code bug witness).  The claim says
`apply(apply(s, m), inverse(m)) == s` for every move; for `m = F` the
uniform `+1` corner-orientation increment of `_apply_f_move` makes
`F` followed by `F' = F·F·F` twist the four cycled corners by `+4 ≡ +1
(mod 3)`, so the state does not return to `s`.  The repository's own test
`test_move_inverse_property` asserts the F/F' round trip. -/
theorem C2_F_inverse_law_fails :
    applyMove (applyMove solvedState Move.F) (Move.inverse Move.F) ≠
      solvedState := by
  decide

/-- **C3** (confirmed).  For every state, the nine base moves of the L, D and
B families fall into the `else` branch of `apply_move` and return an equal
copy of the state; each wide move produces exactly the state its non-wide
equivalent produces, the wide l, d, b families no-opping like their no-op
base faces. -/
theorem C3_noop_and_wide_aliases (s : CubeState) :
    (applyMove s .L = s ∧ applyMove s .Lp = s ∧ applyMove s .L2 = s ∧
      applyMove s .D = s ∧ applyMove s .Dp = s ∧ applyMove s .D2 = s ∧
      applyMove s .B = s ∧ applyMove s .Bp = s ∧ applyMove s .B2 = s) ∧
    (applyMove s .r = applyMove s .R ∧ applyMove s .rp = applyMove s .Rp ∧
      applyMove s .r2 = applyMove s .R2 ∧
      applyMove s .u = applyMove s .U ∧ applyMove s .up = applyMove s .Up ∧
      applyMove s .u2 = applyMove s .U2 ∧
      applyMove s .f = applyMove s .F ∧ applyMove s .fp = applyMove s .Fp ∧
      applyMove s .f2 = applyMove s .F2) ∧
    (applyMove s .l = applyMove s .L ∧ applyMove s .lp = applyMove s .Lp ∧
      applyMove s .l2 = applyMove s .L2 ∧
      applyMove s .d = applyMove s .D ∧ applyMove s .dp = applyMove s .Dp ∧
      applyMove s .d2 = applyMove s .D2 ∧
      applyMove s .b = applyMove s .B ∧ applyMove s .bp = applyMove s .Bp ∧
      applyMove s .b2 = applyMove s .B2) :=
  ⟨⟨rfl, rfl, rfl, rfl, rfl, rfl, rfl, rfl, rfl⟩,
   ⟨rfl, rfl, rfl, rfl, rfl, rfl, rfl, rfl, rfl⟩,
   ⟨rfl, rfl, rfl, rfl, rfl, rfl, rfl, rfl, rfl⟩⟩

/-- **C8** (confirmed).  `IDAStarSolver._heuristic` returns 0 exactly on the
solved state, and on every unsolved state it equals the maximum of 1 and the
four ceiling-division lower bounds (corner twist sum / 3, edge flip sum / 2,
misplaced corners / 3, misplaced edges / 4). -/
theorem C8_heuristic_formula (s : CubeState) :
    (heuristic s = 0 ↔ s = solvedState) ∧
    (s ≠ solvedState →
      heuristic s =
        max 1 (max ⌈(cornerTwistSum s : ℚ) / 3⌉₊
          (max ⌈(edgeFlipSum s : ℚ) / 2⌉₊
            (max ⌈(cornersOutOfPlace s : ℚ) / 3⌉₊
              ⌈(edgesOutOfPlace s : ℚ) / 4⌉₊)))) := by
  constructor
  · constructor
    · intro h
      by_contra hne
      simp only [heuristic, if_neg hne] at h
      split_ifs at h <;> omega
    · intro h
      simp [heuristic, h]
  · intro hne
    simp only [heuristic, if_neg hne, ceilDiv2, ceilDiv3, ceilDiv4]
    split_ifs <;> omega

/-- Witness for C8: the formula evaluated at the concrete unsolved state
obtained by one R move on the solved state. -/
theorem C8_heuristic_formula_witness :
    applyMove solvedState Move.R ≠ solvedState ∧
    heuristic (applyMove solvedState Move.R) =
      max 1 (max ⌈(cornerTwistSum (applyMove solvedState Move.R) : ℚ) / 3⌉₊
        (max ⌈(edgeFlipSum (applyMove solvedState Move.R) : ℚ) / 2⌉₊
          (max ⌈(cornersOutOfPlace (applyMove solvedState Move.R) : ℚ) / 3⌉₊
            ⌈(edgesOutOfPlace (applyMove solvedState Move.R) : ℚ) / 4⌉₊))) :=
  ⟨by decide, (C8_heuristic_formula _).2 (by decide)⟩

/-! ### C10: notation round trip -/

deriving instance DecidableEq for Except

theorem moveStr_ne_nil : ∀ m : Move, Move.str m ≠ [] := by decide

theorem moveStr_noWs : ∀ m : Move, ∀ c ∈ Move.str m, isWs c = false := by decide

theorem moveFromChars_str : ∀ m : Move, moveFromChars (Move.str m) = .ok m := by decide

theorem dropWhile_of_head? (xs : List Char)
    (h : ∀ c, xs.head? = some c → isWs c = false) :
    xs.dropWhile isWs = xs := by
  cases xs with
  | nil => rfl
  | cons c rest => rw [List.dropWhile_cons, h c rfl]; simp

theorem strip_eq_self (cs : List Char)
    (hh : ∀ c, cs.head? = some c → isWs c = false)
    (hl : ∀ c, cs.getLast? = some c → isWs c = false) :
    stripChars cs = cs := by
  unfold stripChars
  rw [dropWhile_of_head? cs hh]
  rw [dropWhile_of_head? cs.reverse (by simpa [List.head?_reverse] using hl)]
  exact cs.reverse_reverse

theorem takeWhile_all_append (t cs : List Char) (p : Char → Bool)
    (h : ∀ c ∈ t, p c = true) :
    (t ++ cs).takeWhile p = t ++ cs.takeWhile p := by
  induction t with
  | nil => rfl
  | cons a t ih =>
    have ha := h a (by simp)
    have ih2 := ih (fun c hc => h c (by simp [hc]))
    simp [List.takeWhile_cons, ha, ih2]

theorem dropWhile_all_append (t cs : List Char) (p : Char → Bool)
    (h : ∀ c ∈ t, p c = true) :
    (t ++ cs).dropWhile p = cs.dropWhile p := by
  induction t with
  | nil => rfl
  | cons a t ih =>
    have ha := h a (by simp)
    have ih2 := ih (fun c hc => h c (by simp [hc]))
    simp [List.dropWhile_cons, ha, ih2]

theorem splitWs_token_cons (t cs : List Char)
    (hne : t ≠ []) (hnw : ∀ c ∈ t, isWs c = false) :
    splitWs (t ++ ' ' :: cs) = t :: splitWs cs := by
  cases t with
  | nil => exact absurd rfl hne
  | cons a t =>
    have ha : isWs a = false := hnw a (by simp)
    have hsp : isWs ' ' = true := rfl
    have htk : (t ++ ' ' :: cs).takeWhile (fun x => !isWs x) = t := by
      rw [takeWhile_all_append t (' ' :: cs) _
        (fun c hc => by simp [hnw c (by simp [hc])])]
      simp [List.takeWhile_cons, hsp]
    have hdr : (t ++ ' ' :: cs).dropWhile (fun x => !isWs x) = ' ' :: cs := by
      rw [dropWhile_all_append t (' ' :: cs) _
        (fun c hc => by simp [hnw c (by simp [hc])])]
      simp [List.dropWhile_cons, hsp]
    rw [List.cons_append]
    simp only [splitWs, ha, htk, hdr]
    simp [hsp]

theorem splitWs_token_one (t : List Char)
    (hne : t ≠ []) (hnw : ∀ c ∈ t, isWs c = false) :
    splitWs t = [t] := by
  cases t with
  | nil => exact absurd rfl hne
  | cons a t =>
    have ha : isWs a = false := hnw a (by simp)
    have htk : t.takeWhile (fun x => !isWs x) = t := by
      have := takeWhile_all_append t [] (fun x => !isWs x)
        (fun c hc => by simp [hnw c (by simp [hc])])
      simpa using this
    have hdr : t.dropWhile (fun x => !isWs x) = [] := by
      have := dropWhile_all_append t [] (fun x => !isWs x)
        (fun c hc => by simp [hnw c (by simp [hc])])
      simpa using this
    simp only [splitWs, ha, htk, hdr]
    simp

theorem splitWs_seqStr : ∀ ms : List Move,
    splitWs (seqStr ms) = ms.map Move.str := by
  intro ms
  induction ms with
  | nil => simp [splitWs, seqStr]
  | cons m rest ih =>
    cases rest with
    | nil =>
      rw [seqStr]
      simp only [List.map_cons, List.map_nil]
      exact splitWs_token_one _ (moveStr_ne_nil m) (moveStr_noWs m)
    | cons m2 rest2 =>
      rw [seqStr, splitWs_token_cons _ _ (moveStr_ne_nil m) (moveStr_noWs m), ih]
      simp

theorem seqStr_head_noWs (m : Move) (ms : List Move) :
    ∀ c, (seqStr (m :: ms)).head? = some c → isWs c = false := by
  intro c hc
  obtain ⟨a, t, hat⟩ : ∃ a t, Move.str m = a :: t := by
    cases h : Move.str m with
    | nil => exact absurd h (moveStr_ne_nil m)
    | cons a t => exact ⟨a, t, rfl⟩
  have ha : isWs a = false := moveStr_noWs m a (by rw [hat]; simp)
  cases ms with
  | nil =>
    rw [seqStr, hat] at hc
    simp at hc
    rwa [← hc]
  | cons m2 rest =>
    rw [seqStr, hat] at hc
    simp at hc
    rwa [← hc]

theorem seqStr_ne_nil (m : Move) (ms : List Move) : seqStr (m :: ms) ≠ [] := by
  cases h : Move.str m with
  | nil => exact absurd h (moveStr_ne_nil m)
  | cons a t =>
    cases ms with
    | nil => rw [seqStr, h]; simp
    | cons m2 r2 => rw [seqStr, h]; simp

theorem seqStr_getLast_noWs (m : Move) (ms : List Move) :
    ∀ c, (seqStr (m :: ms)).getLast? = some c → isWs c = false := by
  induction ms generalizing m with
  | nil =>
    intro c hc
    rw [seqStr] at hc
    exact moveStr_noWs m c (List.mem_of_mem_getLast? hc)
  | cons m2 rest ih =>
    intro c hc
    rw [seqStr] at hc
    rw [List.getLast?_append_of_ne_nil _ (by simp)] at hc
    have hc2 : (seqStr (m2 :: rest)).getLast? = some c := by
      rw [show (' ' :: seqStr (m2 :: rest)) = [' '] ++ seqStr (m2 :: rest) from rfl,
        List.getLast?_append_of_ne_nil _ (seqStr_ne_nil m2 rest)] at hc
      exact hc
    exact ih m2 c hc2

theorem mapM_fromChars : ∀ ms : List Move,
    (ms.map Move.str).mapM (fun tok =>
      match moveFromChars tok with
      | .ok m => Except.ok m
      | .error e => Except.error ("Invalid move sequence: " ++ e)) =
      Except.ok ms := by
  intro ms
  induction ms with
  | nil => rfl
  | cons m rest ih =>
    simp only [List.map_cons, List.mapM_cons, moveFromChars_str m, ih]
    rfl

/-- **C10** (confirmed): printing a move sequence and re-parsing it restores
the sequence. -/
theorem C10_notation_round_trip (ms : List Move) :
    parseSeq (seqStr ms) = .ok ms := by
  cases ms with
  | nil => rfl
  | cons m rest =>
    have hstrip : stripChars (seqStr (m :: rest)) = seqStr (m :: rest) :=
      strip_eq_self _ (seqStr_head_noWs m rest) (seqStr_getLast_noWs m rest)
    unfold parseSeq
    rw [hstrip]
    rw [if_neg (seqStr_ne_nil m rest)]
    rw [splitWs_seqStr]
    exact mapM_fromChars (m :: rest)

/-! ### C5: simplification -/

theorem turnCount_mod4 :
    ∀ m : Move, turnCount m % 4 = (quarterTurns m : ℤ) % 4 := by
  decide

theorem faceQuarter_createMove :
    ∀ m mq : Move, faceQuarter (Move.face m) = some mq →
      createMove (Move.face m) 1 = .ok mq := by
  decide

theorem faceHalf_createMove :
    ∀ m mq : Move, faceHalf (Move.face m) = some mq →
      createMove (Move.face m) 2 = .ok mq := by
  decide

theorem faceQInv_createMove :
    ∀ m mq : Move, faceQInv (Move.face m) = some mq →
      createMove (Move.face m) (-1) = .ok mq := by
  decide

theorem faceQuarter_isSome : ∀ m : Move, (faceQuarter (Move.face m)).isSome := by decide
theorem faceHalf_isSome : ∀ m : Move, (faceHalf (Move.face m)).isSome := by decide
theorem faceQInv_isSome : ∀ m : Move, (faceQInv (Move.face m)).isSome := by decide

theorem sum_turnCount_mod4 (l : List Move) :
    (l.map turnCount).sum % 4 = (((l.map quarterTurns).sum : ℕ) : ℤ) % 4 := by
  induction l with
  | nil => rfl
  | cons m rest ih =>
    simp only [List.map_cons, List.sum_cons, Nat.cast_add]
    have h1 := turnCount_mod4 m
    omega

theorem simplify_eq_coalesce_bounded :
    ∀ n (ms : List Move), ms.length ≤ n →
      simplifySeq ms = .ok (coalesceSpec ms) := by
  intro n
  induction n with
  | zero =>
    intro ms h
    have hnil : ms = [] := List.length_eq_zero.mp (Nat.le_zero.mp h)
    subst hnil
    simp [simplifySeq, coalesceSpec, runsByFace]
  | succ n ih =>
    intro ms h
    cases ms with
    | nil => simp [simplifySeq, coalesceSpec, runsByFace]
    | cons m rest =>
      have hlen := rest.dropWhile_suffix (fun x => Move.face x == Move.face m) |>.length_le
      have hrec : (rest.dropWhile fun x => Move.face x == Move.face m).length ≤ n := by
        simp at h
        omega
      have ihr := ih _ hrec
      simp only [simplifySeq, coalesceSpec, runsByFace, List.filterMap_cons]
      have hbridge := sum_turnCount_mod4
        (m :: (rest.takeWhile fun x => Move.face x == Move.face m))
      simp only [List.map_cons, List.sum_cons, Nat.cast_add] at hbridge
      have ht4 : ((m :: (rest.takeWhile fun x => Move.face x == Move.face m)).map
          quarterTurns).sum % 4 = 0 ∨
        ((m :: (rest.takeWhile fun x => Move.face x == Move.face m)).map
          quarterTurns).sum % 4 = 1 ∨
        ((m :: (rest.takeWhile fun x => Move.face x == Move.face m)).map
          quarterTurns).sum % 4 = 2 ∨
        ((m :: (rest.takeWhile fun x => Move.face x == Move.face m)).map
          quarterTurns).sum % 4 = 3 := by omega
      simp only [List.map_cons, List.sum_cons] at ht4
      rcases ht4 with hq4 | hq4 | hq4 | hq4 <;>
        [ (have hc : (turnCount m +
            ((rest.takeWhile fun x => Move.face x == Move.face m).map
              turnCount).sum) % 4 = 0 := by omega);
          (have hc : (turnCount m +
            ((rest.takeWhile fun x => Move.face x == Move.face m).map
              turnCount).sum) % 4 = 1 := by omega);
          (have hc : (turnCount m +
            ((rest.takeWhile fun x => Move.face x == Move.face m).map
              turnCount).sum) % 4 = 2 := by omega);
          (have hc : (turnCount m +
            ((rest.takeWhile fun x => Move.face x == Move.face m).map
              turnCount).sum) % 4 = 3 := by omega) ]
      · simp only [coalesceRun, List.map_cons, List.sum_cons, hq4, hc]
        norm_num
        exact ihr
      · obtain ⟨q, hq⟩ := Option.isSome_iff_exists.mp (faceQuarter_isSome m)
        have hcm := faceQuarter_createMove m q hq
        simp only [coalesceRun, List.map_cons, List.sum_cons, hq4, hc, hq]
        norm_num
        rw [hcm, ihr]
        rfl
      · obtain ⟨q, hq⟩ := Option.isSome_iff_exists.mp (faceHalf_isSome m)
        have hcm := faceHalf_createMove m q hq
        simp only [coalesceRun, List.map_cons, List.sum_cons, hq4, hc, hq]
        norm_num
        rw [hcm, ihr]
        rfl
      · obtain ⟨q, hq⟩ := Option.isSome_iff_exists.mp (faceQInv_isSome m)
        have hcm := faceQInv_createMove m q hq
        simp only [coalesceRun, List.map_cons, List.sum_cons, hq4, hc, hq]
        norm_num
        rw [hcm, ihr]
        rfl

/-- **C5 amended**: `simplify` coalesces maximal runs of literally
consecutive moves whose notation tokens start with the same case-sensitive
character. -/
theorem C5_simplify_coalesces_runs (ms : List Move) :
    simplifySeq ms = .ok (coalesceSpec ms) :=
  simplify_eq_coalesce_bounded ms.length ms le_rfl

/-- **C5 counterexample**: `R` and wide `r` have different face letters, so
`simplify(parse("R r"))` keeps both moves instead of producing a half turn. -/
theorem C5_R_wide_r_not_merged :
    parseSeq ['R', ' ', 'r'] = .ok [Move.R, Move.r] ∧
    simplifySeq [Move.R, Move.r] = .ok [Move.R, Move.r] ∧
    simplifySeq [Move.R, Move.r] ≠ .ok [Move.R2] ∧
    simplifySeq [Move.R, Move.r] ≠ .ok [Move.r2] := by
  have h1 : parseSeq ['R', ' ', 'r'] = .ok [Move.R, Move.r] := by
    simp +decide [parseSeq, splitWs, stripChars, moveFromChars, moveTable]
  have h2 : simplifySeq [Move.R, Move.r] = .ok [Move.R, Move.r] := by
    simp +decide [simplifySeq, createMove, turnCount, moveFromChars, moveTable,
      stripChars]
  exact ⟨h1, h2, by rw [h2]; decide, by rw [h2]; decide⟩

/-! ### C6: scramble generation -/

set_option linter.constructorNameAsVariable false

theorem faceAllowed_false (f : Char) (lastF slastF : Option Char)
    (h : faceAllowed f lastF slastF = false) :
    lastF = some f ∨ slastF = some f := by
  unfold faceAllowed at h
  split_ifs at h with h1 h2
  · exact Or.inl h1
  · exact Or.inr h2.1

theorem faceAllowed_ne_last (f : Char) (lastF slastF : Option Char)
    (h : faceAllowed f lastF slastF = true) : lastF ≠ some f := by
  intro hl
  unfold faceAllowed at h
  rw [if_pos hl] at h
  simp at h

theorem faceAllowed_no_overlap (f : Char) (lastF slastF : Option Char)
    (h : faceAllowed f lastF slastF = true) (hs : slastF = some f)
    (hl : lastF ≠ none) (ho : oppositeFace f = lastF) : False := by
  unfold faceAllowed at h
  split_ifs at h with h1 h2
  exact h2 ⟨hs, hl, ho⟩

theorem validFaces_ne_nil (lastF slastF : Option Char) :
    scrambleFaces.filter (fun f => faceAllowed f lastF slastF) ≠ [] := by
  intro h
  have hall : ∀ f ∈ scrambleFaces, faceAllowed f lastF slastF = false := by
    intro f hf
    by_contra hc
    have hmem : f ∈ scrambleFaces.filter (fun f => faceAllowed f lastF slastF) :=
      List.mem_filter.mpr ⟨hf, by revert hc; cases faceAllowed f lastF slastF <;> simp⟩
    rw [h] at hmem
    exact absurd hmem (List.not_mem_nil f)
  have hR := faceAllowed_false _ _ _ (hall 'R' (by decide))
  have hL := faceAllowed_false _ _ _ (hall 'L' (by decide))
  have hU := faceAllowed_false _ _ _ (hall 'U' (by decide))
  rcases hR with hR | hR <;> rcases hL with hL | hL <;> rcases hU with hU | hU <;>
    simp_all

theorem moveGroups_face :
    ∀ c ∈ scrambleFaces, ∀ m ∈ moveGroups c,
      Move.face m = c ∧ m ∈ scrambleBaseMoves := by
  decide

theorem moveGroups_length : ∀ c ∈ scrambleFaces, (moveGroups c).length = 3 := by
  decide

theorem scrambleLoop_spec (oracle : ℕ → ℕ) :
    ∀ n k lastF slastF,
      (scrambleLoop oracle n k lastF slastF).length = n ∧
      (∀ m ∈ scrambleLoop oracle n k lastF slastF, m ∈ scrambleBaseMoves) ∧
      goodChain slastF lastF (scrambleLoop oracle n k lastF slastF) = true := by
  intro n
  induction n with
  | zero =>
    intro k lastF slastF
    refine ⟨rfl, ?_, rfl⟩
    intro m hm
    simp [scrambleLoop] at hm
  | succ n ih =>
    intro k lastF slastF
    have hvne := validFaces_ne_nil lastF slastF
    have hlen : 0 < (scrambleFaces.filter fun f => faceAllowed f lastF slastF).length :=
      List.length_pos.mpr hvne
    have hidx : oracle k % (scrambleFaces.filter fun f => faceAllowed f lastF slastF).length <
        (scrambleFaces.filter fun f => faceAllowed f lastF slastF).length :=
      Nat.mod_lt _ hlen
    set valid := scrambleFaces.filter fun f => faceAllowed f lastF slastF with hvalid
    set cf := valid.getD (oracle k % valid.length) 'R' with hcf
    have hcfmem : cf ∈ valid := by
      rw [hcf, List.getD_eq_getElem valid 'R' hidx]
      exact List.getElem_mem hidx
    rw [hvalid] at hcfmem
    have hcffaces : cf ∈ scrambleFaces := (List.mem_filter.mp hcfmem).1
    have hcfallowed : faceAllowed cf lastF slastF = true :=
      (List.mem_filter.mp hcfmem).2
    have hglen : (moveGroups cf).length = 3 := moveGroups_length cf hcffaces
    have hgidx : oracle (k + 1) % (moveGroups cf).length < (moveGroups cf).length := by
      rw [hglen]; omega
    set mv := (moveGroups cf).getD (oracle (k + 1) % (moveGroups cf).length) .R with hmv
    have hmvmem : mv ∈ moveGroups cf := by
      rw [hmv, List.getD_eq_getElem _ .R hgidx]
      exact List.getElem_mem hgidx
    have hmvface : Move.face mv = cf ∧ mv ∈ scrambleBaseMoves :=
      moveGroups_face cf hcffaces mv hmvmem
    obtain ⟨ihlen, ihmem, ihchain⟩ := ih (k + 2) (some cf) lastF
    refine ⟨?_, ?_, ?_⟩
    · simp only [scrambleLoop]
      rw [← hvalid, ← hcf, ← hmv]
      simp [ihlen]
    · intro m hm
      simp only [scrambleLoop] at hm
      rw [← hvalid, ← hcf, ← hmv] at hm
      rcases List.mem_cons.mp hm with rfl | hm
      · exact hmvface.2
      · exact ihmem m hm
    · simp only [scrambleLoop]
      rw [← hvalid, ← hcf, ← hmv]
      rw [goodChain]
      rw [hmvface.1, hcfallowed]
      simpa using ihchain

theorem goodChain_adjacent :
    ∀ (l : List Move) (slastF lastF : Option Char),
      goodChain slastF lastF l = true → adjacentFacesDiffer l = true := by
  intro l
  induction l with
  | nil => intro _ _ _; rfl
  | cons a rest ih =>
    intro slastF lastF h
    rw [goodChain, Bool.and_eq_true] at h
    obtain ⟨ha, hrest⟩ := h
    cases rest with
    | nil => rfl
    | cons b rest2 =>
      rw [adjacentFacesDiffer, Bool.and_eq_true]
      refine ⟨?_, ih lastF (some (Move.face a)) hrest⟩
      rw [goodChain, Bool.and_eq_true] at hrest
      have hb := faceAllowed_ne_last _ _ _ hrest.1
      simp only [bne_iff_ne, ne_eq]
      intro hcontra
      exact hb (by rw [hcontra])

theorem goodChain_noSandwich :
    ∀ (l : List Move) (slastF lastF : Option Char),
      goodChain slastF lastF l = true → noSandwich l = true := by
  intro l
  induction l with
  | nil => intro _ _ _; rfl
  | cons a rest ih =>
    intro slastF lastF h
    rw [goodChain, Bool.and_eq_true] at h
    obtain ⟨ha, hrest⟩ := h
    cases rest with
    | nil => rfl
    | cons b rest2 =>
      cases rest2 with
      | nil => rfl
      | cons c rest3 =>
        rw [noSandwich, Bool.and_eq_true]
        refine ⟨?_, ih lastF (some (Move.face a)) hrest⟩
        rw [goodChain, Bool.and_eq_true] at hrest
        obtain ⟨hb, hrest2⟩ := hrest
        rw [goodChain, Bool.and_eq_true] at hrest2
        obtain ⟨hc, _⟩ := hrest2
        cases hcase : (Move.face a == Move.face c &&
            (oppositeFace (Move.face a) == some (Move.face b))) with
        | false => rfl
        | true =>
          rw [Bool.and_eq_true, beq_iff_eq, beq_iff_eq] at hcase
          obtain ⟨hfac, hopp⟩ := hcase
          exact absurd (faceAllowed_no_overlap (Move.face c) (some (Move.face b))
            (some (Move.face a)) hc (by rw [hfac]) (by simp)
            (by rw [← hfac, hopp])) not_false

/-- **C6** (confirmed): for every outcome of the random choices,
`generate_scramble(length)` returns exactly `length` moves drawn from the 18
base face turns, no two adjacent moves share a face, no three consecutive
moves form the opposite-face sandwich, and every `length <= 0` yields the
empty sequence rather than an error. -/
theorem C6_generate_scramble (len : ℤ) (oracle : ℕ → ℕ) :
    (1 ≤ len →
      ((generateScramble len oracle).length : ℤ) = len ∧
      (∀ m ∈ generateScramble len oracle, m ∈ scrambleBaseMoves) ∧
      adjacentFacesDiffer (generateScramble len oracle) = true ∧
      noSandwich (generateScramble len oracle) = true) ∧
    (len ≤ 0 → generateScramble len oracle = []) := by
  constructor
  · intro hpos
    have hne : ¬ len ≤ 0 := by omega
    obtain ⟨hlen, hmem, hchain⟩ := scrambleLoop_spec oracle len.toNat 0 none none
    unfold generateScramble
    rw [if_neg hne]
    refine ⟨?_, hmem, goodChain_adjacent _ _ _ hchain,
      goodChain_noSandwich _ _ _ hchain⟩
    rw [hlen]
    omega
  · intro hneg
    unfold generateScramble
    rw [if_pos hneg]

/-- Witness for C6 at the concrete call `generate_scramble(4)` with the
identity oracle. -/
theorem C6_generate_scramble_witness :
    ((generateScramble 4 (fun k => k)).length : ℤ) = 4 ∧
    (∀ m ∈ generateScramble 4 (fun k => k), m ∈ scrambleBaseMoves) ∧
    adjacentFacesDiffer (generateScramble 4 (fun k => k)) = true ∧
    noSandwich (generateScramble 4 (fun k => k)) = true :=
  (C6_generate_scramble 4 (fun k => k)).1 (by decide)

/-! ### C4: facelet round trip -/

theorem beq_scheme (σ : Fin 6 → String) (hinj : Function.Injective σ) :
    ∀ a b : Fin 6, (σ a == σ b) = decide (a = b) := by
  intro a b
  by_cases hab : a = b
  · simp [hab]
  · simp only [decide_eq_false hab, beq_eq_false_iff_ne, ne_eq]
    exact fun hc => hab (hinj hc)

set_option maxHeartbeats 1000000 in
theorem findCorner_encode (σ g : Fin 6 → String) (hg : ∀ k, g k = σ k)
    (hinj : Function.Injective σ) (p : ℕ) (hp : p < 8) (o : ℕ) (ho : o < 3) :
    findCorner (cornerOriented σ p o) g = some (⟨p, hp⟩, o) := by
  have hsig := beq_scheme σ hinj
  interval_cases p <;> interval_cases o <;>
    (simp only [cornerOriented, cornerFacelets]
     norm_num
     simp only [findCorner, cornerFacelets, rotate3, hg]
     simp only [show List.finRange 8 = [0, 1, 2, 3, 4, 5, 6, 7] from rfl]
     simp only [List.findSome?_cons, List.find?, List.range_succ]
     simp +decide [hsig, List.getD])

set_option maxHeartbeats 1000000 in
theorem findEdge_encode (σ g : Fin 6 → String) (hg : ∀ k, g k = σ k)
    (hinj : Function.Injective σ) (p : ℕ) (hp : p < 12) (o : ℕ) (ho : o < 2) :
    findEdge (edgeOriented σ p o) g = some (⟨p, hp⟩, o) := by
  have hsig := beq_scheme σ hinj
  interval_cases p <;> interval_cases o <;>
    (simp only [edgeOriented, edgeFacelets]
     norm_num
     simp only [findEdge, edgeFacelets, hg]
     simp only [show List.finRange 12 =
       [0, 1, 2, 3, 4, 5, 6, 7, 8, 9, 10, 11] from rfl]
     simp only [List.findSome?_cons]
     simp +decide [hsig])




theorem decodeCorner_encode (σ g : Fin 6 → String) (hg : ∀ k, g k = σ k)
    (hinj : Function.Injective σ) (p : ℕ) (hp : p < 8) (o : ℕ) (ho : o < 3)
    (i : ℕ) :
    decodeCorner (cornerOriented σ p o) g i = .ok (⟨p, hp⟩, o) := by
  unfold decodeCorner
  rw [findCorner_encode σ g hg hinj p hp o ho]

theorem decodeEdge_encode (σ g : Fin 6 → String) (hg : ∀ k, g k = σ k)
    (hinj : Function.Injective σ) (p : ℕ) (hp : p < 12) (o : ℕ) (ho : o < 2)
    (i : ℕ) :
    decodeEdge (edgeOriented σ p o) g i = .ok (⟨p, hp⟩, o) := by
  unfold decodeEdge
  rw [findEdge_encode σ g hg hinj p hp o ho]

theorem mapM_ok_of_all {α β : Type} (l : List α) (f : α → Except String β)
    (g : α → β) (h : ∀ a ∈ l, f a = .ok (g a)) :
    l.mapM f = .ok (l.map g) := by
  induction l with
  | nil => rfl
  | cons a t ih =>
    rw [List.mapM_cons, h a (by simp), List.map_cons,
      ih (fun x hx => h x (by simp [hx]))]
    rfl

set_option maxHeartbeats 4000000 in
theorem fromFacelets_toFacelets (s : CubeState) (sch : ColorScheme)
    (hinj : Function.Injective (schemeColor sch))
    (hco : ∀ i, s.co i < 3) (heo : ∀ i, s.eo i < 2) :
    fromFacelets (toFacelets s sch) = .ok s := by
  have hg : ∀ k : Fin 6,
      (fun k : Fin 6 => (toFacelets s sch).getD (9 * k.val + 4) "") k =
        schemeColor sch k := by
    intro k; fin_cases k <;> rfl
  have hC : ((List.finRange 8).mapM fun i =>
      decodeCorner
        [(toFacelets s sch).getD
            ((cornerFacelets i.val).1.val * 9 + (cornerFacelets i.val).2.1) "",
         (toFacelets s sch).getD
            ((cornerFacelets i.val).2.2.1.val * 9 +
              (cornerFacelets i.val).2.2.2.1) "",
         (toFacelets s sch).getD
            ((cornerFacelets i.val).2.2.2.2.1.val * 9 +
              (cornerFacelets i.val).2.2.2.2.2) ""]
        (fun k => (toFacelets s sch).getD (9 * k.val + 4) "") i.val) =
      Except.ok ((List.finRange 8).map fun i => (s.cp i, s.co i)) := by
    apply mapM_ok_of_all
    intro i hi
    fin_cases i <;>
      exact decodeCorner_encode (schemeColor sch) _ hg hinj _ (Fin.isLt _) _
        (hco _) _
  have hE : ((List.finRange 12).mapM fun i =>
      decodeEdge
        [(toFacelets s sch).getD
            ((edgeFacelets i.val).1.val * 9 + (edgeFacelets i.val).2.1) "",
         (toFacelets s sch).getD
            ((edgeFacelets i.val).2.2.1.val * 9 +
              (edgeFacelets i.val).2.2.2) ""]
        (fun k => (toFacelets s sch).getD (9 * k.val + 4) "") i.val) =
      Except.ok ((List.finRange 12).map fun i => (s.ep i, s.eo i)) := by
    apply mapM_ok_of_all
    intro i hi
    fin_cases i <;>
      exact decodeEdge_encode (schemeColor sch) _ hg hinj _ (Fin.isLt _) _
        (heo _) _
  have hfinal :
      (CubeState.mk
        (fun i => (((List.finRange 8).map fun i => (s.cp i, s.co i)).getD
          i.val (0, 0)).1)
        (fun i => (((List.finRange 8).map fun i => (s.cp i, s.co i)).getD
          i.val (0, 0)).2)
        (fun i => (((List.finRange 12).map fun i => (s.ep i, s.eo i)).getD
          i.val (0, 0)).1)
        (fun i => (((List.finRange 12).map fun i => (s.ep i, s.eo i)).getD
          i.val (0, 0)).2)) = s := by
    obtain ⟨cp, co, ep, eo⟩ := s
    congr 1 <;> funext i <;> fin_cases i <;> rfl
  unfold fromFacelets
  rw [if_neg (fun h => h (show (toFacelets s sch).length = 54 from rfl))]
  rw [hC, hE]
  exact congrArg Except.ok hfinal

/-- The WCA `DEFAULT_SCHEME` of `cubist/core/color_scheme.py`. -/
def defaultScheme : ColorScheme :=
  ⟨"#FFFFFF", "#FFD500", "#009E60", "#0046AD", "#C41E3A", "#FF5800"⟩

/-- A `ColorScheme` that passes `__post_init__` (all entries are valid hex
colors) but paints U and D the same color. -/
def dupScheme : ColorScheme :=
  ⟨"#FFFFFF", "#FFFFFF", "#009E60", "#0046AD", "#C41E3A", "#FF5800"⟩


/-- **C4 counterexample**: the claim quantifies over every `ColorScheme`, but
a scheme may repeat a color (`__post_init__` only validates hex syntax).
With U and D painted the same color, the solved state's DR edge pair reads
identically to the UR pair, `from_facelets` matches the earlier reference
edge, and the round trip fails on the legal solved state. -/
theorem C4_round_trip_fails_dup_scheme :
    IsLegal solvedState ∧ OrientInRange solvedState ∧
    fromFacelets (toFacelets solvedState dupScheme) ≠ .ok solvedState := by
  refine ⟨by decide, by decide, by decide⟩

/-- **C4 amended**: for every legal state (orientations in the data-model
ranges) and every color scheme whose six colors are pairwise distinct,
converting to facelets and back yields an equal state (`from_facelets` takes
no scheme argument and reads the mapping from the six center facelets). -/
theorem C4_facelet_round_trip (s : CubeState) (sch : ColorScheme)
    (hleg : IsLegal s) (hrange : OrientInRange s)
    (hinj : Function.Injective (schemeColor sch)) :
    fromFacelets (toFacelets s sch) = .ok s :=
  fromFacelets_toFacelets s sch hinj hrange.1 hrange.2

/-- Witness for C4: the round trip at the solved state with the default WCA
scheme, whose six colors are pairwise distinct. -/
theorem C4_facelet_round_trip_witness :
    IsLegal solvedState ∧ OrientInRange solvedState ∧
    Function.Injective (schemeColor defaultScheme) ∧
    fromFacelets (toFacelets solvedState defaultScheme) = .ok solvedState :=
  ⟨by decide, by decide, by decide,
    C4_facelet_round_trip _ _ (by decide) (by decide) (by decide)⟩

/-! ### C9: validator accumulation -/

theorem mem_uniques_of_mem :
    ∀ (l : List String) (c : String), c ∈ l → c ∈ uniques l := by
  have aux : ∀ (l acc : List String) (c : String), c ∈ acc ∨ c ∈ l →
      c ∈ l.foldl (fun acc c => if c ∈ acc then acc else acc ++ [c]) acc := by
    intro l
    induction l with
    | nil =>
      intro acc c h
      rcases h with h | h
      · exact h
      · exact absurd h (List.not_mem_nil c)
    | cons a t ih =>
      intro acc c h
      rw [List.foldl_cons]
      apply ih
      rcases h with h | h
      · left
        split_ifs with ha
        · exact h
        · exact List.mem_append_left _ h
      · rcases List.mem_cons.mp h with rfl | h
        · left
          split_ifs with ha
          · exact ha
          · exact List.mem_append_right _ (by simp)
        · right
          exact h
  intro l c h
  exact aux l [] c (Or.inr h)

/-- **C9** (confirmed): a 54-cell facelet list with exactly 6 distinct colors
where one color appears 8 times and another 10 times is reported invalid,
and the error list contains a wrong-count color-distribution error for each
of the two miscounted colors. -/
theorem C9_validator_accumulates (fl : List String) (c1 c2 : String)
    (hlen : fl.length = 54) (h6 : (uniques fl).length = 6)
    (hne : c1 ≠ c2) (h8 : fl.count c1 = 8) (h10 : fl.count c2 = 10) :
    (validateFacelets fl).1 = false ∧
    ("Color " ++ c1 ++ " appears " ++ toString (fl.count c1) ++
      " times, expected 9") ∈ (validateFacelets fl).2 ∧
    ("Color " ++ c2 ++ " appears " ++ toString (fl.count c2) ++
      " times, expected 9") ∈ (validateFacelets fl).2 := by
  have hm1 : c1 ∈ uniques fl :=
    mem_uniques_of_mem fl c1 (List.count_pos_iff.mp (by omega))
  have hm2 : c2 ∈ uniques fl :=
    mem_uniques_of_mem fl c2 (List.count_pos_iff.mp (by omega))
  have he1 : ("Color " ++ c1 ++ " appears " ++ toString (fl.count c1) ++
      " times, expected 9") ∈ (uniques fl).filterMap fun c =>
        if fl.count c ≠ 9 then
          some ("Color " ++ c ++ " appears " ++ toString (fl.count c) ++
            " times, expected 9")
        else none := by
    apply List.mem_filterMap.mpr
    exact ⟨c1, hm1, by rw [if_pos (by omega)]⟩
  have he2 : ("Color " ++ c2 ++ " appears " ++ toString (fl.count c2) ++
      " times, expected 9") ∈ (uniques fl).filterMap fun c =>
        if fl.count c ≠ 9 then
          some ("Color " ++ c ++ " appears " ++ toString (fl.count c) ++
            " times, expected 9")
        else none := by
    apply List.mem_filterMap.mpr
    exact ⟨c2, hm2, by rw [if_pos (by omega)]⟩
  have herrne : ((uniques fl).filterMap fun c =>
      if fl.count c ≠ 9 then
        some ("Color " ++ c ++ " appears " ++ toString (fl.count c) ++
          " times, expected 9")
      else none) ≠ [] := List.ne_nil_of_mem he1
  unfold validateFacelets
  rw [if_neg (by omega)]
  simp only [h6]
  rw [if_neg (show ¬(6 : ℕ) ≠ 6 by omega)]
  rw [List.nil_append]
  rw [if_pos herrne]
  exact ⟨rfl, he1, he2⟩

set_option maxRecDepth 4000 in
/-- Witness for C9 at a concrete 8/10 miscounted facelet list. -/
theorem C9_validator_accumulates_witness :
    (validateFacelets miscountedFacelets).1 = false ∧
    ("Color " ++ "a" ++ " appears " ++ toString (miscountedFacelets.count "a") ++
      " times, expected 9") ∈ (validateFacelets miscountedFacelets).2 ∧
    ("Color " ++ "b" ++ " appears " ++ toString (miscountedFacelets.count "b") ++
      " times, expected 9") ∈ (validateFacelets miscountedFacelets).2 :=
  C9_validator_accumulates miscountedFacelets "a" "b" (by decide) (by decide)
    (by decide) (by decide) (by decide)

/-! ### C7: solver failure outcomes -/

theorem solveLoop_outcomes (tOr : ℕ → ℕ) (cOr : ℕ → Bool) (startT : ℕ)
    (state : CubeState) (fuel : ℕ) :
    ∀ (d : ℕ) (bound : ℕ∞) (tk ck : ℕ) (r : Except PyError (List Move)),
      solveLoop tOr cOr startT state fuel d bound tk ck = some r →
      (∃ p, r = .ok p) ∨
        r = .error ⟨.valueError, "Search cancelled by user"⟩ ∨
        r = .error ⟨.valueError, "Search timeout exceeded"⟩ ∨
        r = .error ⟨.valueError, "No solution found within maximum depth"⟩ := by
  intro d
  induction d with
  | zero =>
    intro bound tk ck r h
    rw [solveLoop] at h
    right; right; right
    exact (Option.some.inj h).symm
  | succ d ih =>
    intro bound tk ck r h
    rw [solveLoop] at h
    split_ifs at h with h1 h2
    · right; left
      exact (Option.some.inj h).symm
    · right; right; left
      exact (Option.some.inj h).symm
    · rcases hs : search tOr cOr startT fuel state 0 bound [] [] (tk + 1) (ck + 1)
        with _ | ⟨sr, a, b⟩
      · rw [hs] at h
        exact absurd h (by simp)
      · rw [hs] at h
        cases sr with
        | found p =>
          left
          exact ⟨p, (Option.some.inj h).symm⟩
        | bnd bv =>
          exact ih bv a b r h

/-- **C7 amended**: on any input, `solve` either returns a solution or raises
`ValueError` with one of the three failure messages; all three failures
carry the same exception class (`ValueError`), so callers can tell them
apart only by message text, not by exception kind. -/
theorem C7_solve_outcomes (state : CubeState) (tOr : ℕ → ℕ) (cOr : ℕ → Bool)
    (fuel : ℕ) (r : Except PyError (List Move))
    (h : solveE state tOr cOr fuel = some r) :
    ((∃ p, r = .ok p) ∨
      r = .error ⟨.valueError, "Search cancelled by user"⟩ ∨
      r = .error ⟨.valueError, "Search timeout exceeded"⟩ ∨
      r = .error ⟨.valueError, "No solution found within maximum depth"⟩) ∧
    (∀ e : PyError, r = .error e → e.kind = .valueError) := by
  constructor
  · unfold solveE at h
    split_ifs at h with hsolved
    · exact Or.inl ⟨[], (Option.some.inj h).symm⟩
    · exact solveLoop_outcomes tOr cOr (tOr 0) state fuel idaMaxDepth _ 1 0 r h
  · intro e he
    have hout : ((∃ p, r = .ok p) ∨
        r = .error ⟨.valueError, "Search cancelled by user"⟩ ∨
        r = .error ⟨.valueError, "Search timeout exceeded"⟩ ∨
        r = .error ⟨.valueError, "No solution found within maximum depth"⟩) := by
      unfold solveE at h
      split_ifs at h with hsolved
      · exact Or.inl ⟨[], (Option.some.inj h).symm⟩
      · exact solveLoop_outcomes tOr cOr (tOr 0) state fuel idaMaxDepth _ 1 0 r h
    subst he
    rcases hout with ⟨p, hp⟩ | h1 | h1 | h1
    · exact absurd hp (by simp)
    all_goals
      rw [(Except.error.inj h1 : e = _)]

/-- **C7 counterexample**: three concrete runs on the unsolved state R·solved
hit the cancellation, timeout and depth-exhaustion failures; all three raise
the SAME exception class `ValueError` (only the message differs), refuting
"mutually distinguishable error outcomes as distinct outcome kinds". -/
theorem C7_failures_share_exception_class :
    solveE (applyMove solvedState Move.R) (fun _ => 0) (fun _ => true) 1 =
      some (.error ⟨.valueError, "Search cancelled by user"⟩) ∧
    solveE (applyMove solvedState Move.R) (fun k => if k = 0 then 0 else 400)
        (fun _ => false) 1 =
      some (.error ⟨.valueError, "Search timeout exceeded"⟩) ∧
    solveE (applyMove solvedState Move.R)
        (fun k => if k % 2 = 1 then 0 else if k = 0 then 0 else 400)
        (fun _ => false) 1 =
      some (.error ⟨.valueError, "No solution found within maximum depth"⟩) ∧
    (∀ e1 ∈ [(⟨.valueError, "Search cancelled by user"⟩ : PyError),
        ⟨.valueError, "Search timeout exceeded"⟩,
        ⟨.valueError, "No solution found within maximum depth"⟩],
      ∀ e2 ∈ [(⟨.valueError, "Search cancelled by user"⟩ : PyError),
        ⟨.valueError, "Search timeout exceeded"⟩,
        ⟨.valueError, "No solution found within maximum depth"⟩],
      PyError.kind e1 = PyError.kind e2) := by
  refine ⟨by decide, by decide, by decide, by decide⟩

/-- Witness for C7 at the concrete cancelled run. -/
theorem C7_solve_outcomes_witness :
    ((∃ p, (Except.error ⟨.valueError, "Search cancelled by user"⟩ :
        Except PyError (List Move)) = .ok p) ∨
      (Except.error ⟨PyExcKind.valueError, "Search cancelled by user"⟩ :
        Except PyError (List Move)) =
        .error ⟨.valueError, "Search cancelled by user"⟩ ∨
      (Except.error ⟨PyExcKind.valueError, "Search cancelled by user"⟩ :
        Except PyError (List Move)) =
        .error ⟨.valueError, "Search timeout exceeded"⟩ ∨
      (Except.error ⟨PyExcKind.valueError, "Search cancelled by user"⟩ :
        Except PyError (List Move)) =
        .error ⟨.valueError, "No solution found within maximum depth"⟩) ∧
    (∀ e : PyError,
      (Except.error ⟨PyExcKind.valueError, "Search cancelled by user"⟩ :
        Except PyError (List Move)) = .error e → e.kind = .valueError) :=
  C7_solve_outcomes (applyMove solvedState Move.R) (fun _ => 0) (fun _ => true)
    1 (.error ⟨.valueError, "Search cancelled by user"⟩) (by decide)

end Cubist
